import Mathlib

/-!
Verification of the DBSCAN repository (src/dbscan/dbscan.py, src/test/dbscan_test.py).

Embedding conventions:
- Feature vectors are lists of rationals; squared Euclidean distances replace the
  floating-point true distances computed by scipy's pdist.  Since sqrt is monotone
  and every comparison in the code is `distance < eps` with `eps ≥ 0` in every
  scenario considered, comparing squared distances against the square of eps is
  exact.
- The condensed distance matrix is an arbitrary `List ℚ`; the functions
  `square_to_condensed`, `get_distances_from_other_points` and
  `getCoreSampleIndices` are parametric in it, exactly as in the source.
- Python's `assert i != j` in `square_to_condensed` is embedded as an `Option`
  result: `none` is the assertion failure.
- Python's true division `j * (j + 1) / 2` is exact here (the product is even),
  so it is embedded as integer division over `ℤ`.
-/

/-- Squared Euclidean distance between two feature vectors
(scipy pdist computes the true Euclidean distance; we keep its square). -/
def sqDist (x y : List ℚ) : ℚ :=
  (List.zipWith (fun a b => (a - b) * (a - b)) x y).sum

/-- Condensed pairwise (squared) distance matrix, in pdist order:
pairs (i, j) with i < j, i-major. -/
def pdistSq (data : List (List ℚ)) : List ℚ :=
  (List.range data.length).flatMap (fun i =>
    (List.range' (i + 1) (data.length - (i + 1))).map
      (fun j => sqDist (data.getD i []) (data.getD j [])))

/-- Embedding of `square_to_condensed(i, j, n)`: asserts `i != j` (the `none`
case), swaps so the first index is the larger, and returns
`n * j - j * (j + 1) / 2 + i - 1 - j`. -/
def square_to_condensed (i j n : ℕ) : Option ℤ :=
  if i = j then none
  else
    let a : ℤ := if i < j then (j : ℤ) else (i : ℤ)
    let b : ℤ := if i < j then (i : ℤ) else (j : ℤ)
    some ((n : ℤ) * b - b * (b + 1) / 2 + a - 1 - b)

/-- Embedding of `distance_matrix.take([...])` applied to one condensed index:
a `none` index (the failed assertion) and an out-of-range index both default
to 0 here; neither case occurs in the calls the program makes. -/
def takeOpt (dmat : List ℚ) (o : Option ℤ) : ℚ :=
  match o with
  | none => 0
  | some z => dmat.getD z.toNat 0

/-- Distance-matrix entry for the pair (i, j), via the condensed index. -/
def condensedLookup (dmat : List ℚ) (n i j : ℕ) : ℚ :=
  takeOpt dmat (square_to_condensed i j n)

/-- Embedding of `get_distances_from_other_points(i, n, distance_matrix)`:
the j-indices are `chain(range(0, i), range(i+1, n))`, truncated by the zip
with `repeat(i, n)` to at most n pairs, and each index pair is looked up in
the condensed matrix. -/
def get_distances_from_other_points (i n : ℕ) (dmat : List ℚ) : List ℚ :=
  ((List.range i ++ List.range' (i + 1) (n - (i + 1))).take n).map
    (fun j => condensedLookup dmat n i j)

/-- Embedding of `DBSCAN._get_core_sample_indices(n, distance_matrix)`:
for each point i in `range n`, count the distances to other points that are
strictly below the threshold, add 1 for the point itself, and keep i when the
total reaches `min_samples`.  The threshold parameter plays the role of
`self._eps` (at the `fit` call site it is the squared eps, matching the
squared distances stored in the matrix). -/
def getCoreSampleIndices (eps : ℚ) (min_samples : ℤ) (n : ℕ) (dmat : List ℚ) :
    List ℕ :=
  (List.range n).filter (fun i =>
    min_samples ≤
      ((get_distances_from_other_points i n dmat).countP (fun d => d < eps) : ℤ) + 1)

/-- State of a DBSCAN instance: the two constructor parameters and the three
result attributes, which start out as Python `None`. -/
structure DBSCANState where
  eps : ℚ
  min_samples : ℤ
  core_sample_indices_ : Option (List ℕ)
  components_ : Option (List (List ℚ))
  labels_ : Option (List ℤ)
  deriving DecidableEq

/-- Embedding of `DBSCAN.__init__(eps, min_samples)`: the parameters are stored
unconditionally (the constructor body performs no validation of any kind) and
the three result attributes are set to `None`. -/
def DBSCANState.init (eps : ℚ) (min_samples : ℤ) : DBSCANState :=
  { eps := eps, min_samples := min_samples,
    core_sample_indices_ := none, components_ := none, labels_ := none }

/-- Embedding of `DBSCAN.fit(data)`: builds the condensed (squared) distance
matrix, computes the core sample indices, and copies the corresponding rows of
the input into `components_`.  The threshold passed on is `eps * eps` because
the matrix holds squared distances.  Note that `labels_` is left untouched:
the source's `fit` never assigns it. -/
def DBSCANState.fit (m : DBSCANState) (data : List (List ℚ)) : DBSCANState :=
  let dmat := pdistSq data
  let n := data.length
  let core := getCoreSampleIndices (m.eps * m.eps) m.min_samples n dmat
  { m with core_sample_indices_ := some core,
           components_ := some (core.map (fun i => data.getD i [])) }

/-- Scenario A from the test fixture: two triangular clusters and one outlier. -/
def scenarioA : List (List ℚ) :=
  [[1, 3], [2, 2], [3, 1], [6, 8], [7, 7], [8, 6], [1, 8]]

/-- C1: the claim says that after `fit` the result carries a `labels` sequence
of length n with a cluster id or -1 for every point.  The code never computes
labels: `fit` only assigns `core_sample_indices_` and `components_`, so
`labels_` is still `None` after fitting the 7-point scenario, contradicting
the class docstring and the repository's own `test_fit`. -/
theorem fit_leaves_labels_unassigned :
    ((DBSCANState.init (3 / 2) 3).fit scenarioA).labels_ = none ∧
      scenarioA.length = 7 := by
  constructor
  · rfl
  · rfl

/-- C2: evaluation of `fit` on the 7-point fixture with eps = 3/2 and
min_samples = 3.  The computed core sample indices and components match the
expected values, but `labels_` is `None` rather than the expected
[0,0,0,1,1,1,-1]: the expansion step that would produce labels is absent. -/
theorem scenarioA_fit_eval :
    ((DBSCANState.init (3 / 2) 3).fit scenarioA).core_sample_indices_ =
        some [1, 4] ∧
      ((DBSCANState.init (3 / 2) 3).fit scenarioA).components_ =
        some [[2, 2], [7, 7]] ∧
      ((DBSCANState.init (3 / 2) 3).fit scenarioA).labels_ = none := by
  refine ⟨?_, ?_, rfl⟩
  · with_unfolding_all decide
  · with_unfolding_all decide

/-- C6 counterexample: constructing the engine with eps = 0 ≤ 0 and
min_samples = 0 < 1 does not fail: the constructor simply stores the
parameters, and a subsequent `fit` happily computes a result. -/
theorem init_no_validation_counterexample :
    DBSCANState.init 0 0 =
        { eps := 0, min_samples := 0, core_sample_indices_ := none,
          components_ := none, labels_ := none } ∧
      ((DBSCANState.init 0 0).fit [[0], [1]]).core_sample_indices_ =
        some [0, 1] := by
  constructor
  · rfl
  · with_unfolding_all decide

/-- C6 amended: the constructor performs no validation at all: any eps and
min_samples are accepted and stored unchanged, the result attributes start as
`None`, and `fit` always computes core samples and components regardless of
the parameter values. -/
theorem init_stores_params_unvalidated (eps : ℚ) (ms : ℤ)
    (data : List (List ℚ)) :
    (DBSCANState.init eps ms).eps = eps ∧
      (DBSCANState.init eps ms).min_samples = ms ∧
      (DBSCANState.init eps ms).labels_ = none ∧
      ((DBSCANState.init eps ms).fit data).core_sample_indices_.isSome = true ∧
      ((DBSCANState.init eps ms).fit data).components_.isSome = true := by
  exact ⟨rfl, rfl, rfl, rfl, rfl⟩

/-- C7 counterexample: running `fit` on a single point does not fail: no
input-size validation exists, so a result is produced (with min_samples = 1
the lone point is even a core point). -/
theorem fit_single_point_succeeds :
    ((DBSCANState.init 1 1).fit [[0, 0]]).core_sample_indices_ = some [0] ∧
      ((DBSCANState.init 1 1).fit [[0, 0]]).components_ = some [[0, 0]] := by
  constructor
  · with_unfolding_all decide
  · with_unfolding_all decide

/-- C7 amended: the self-distance query does fail (the assertion `i != j`
yields no condensed index for i = j), but `fit` performs no n ≥ 2 validation:
on fewer than 2 points it succeeds and produces a result. -/
theorem self_distance_fails_but_no_size_check :
    (∀ i n : ℕ, square_to_condensed i i n = none) ∧
      ((DBSCANState.init 1 1).fit [[0, 0]]).core_sample_indices_ =
        some [0] := by
  constructor
  · intro i n
    simp [square_to_condensed]
  · with_unfolding_all decide

/-- List of the other points' indices that `get_distances_from_other_points`
visits: range(0, i) followed by range(i+1, n). -/
lemma jlist_take (i n : ℕ) (hi : i < n) :
    (List.range i ++ List.range' (i + 1) (n - (i + 1))).take n
      = List.range i ++ List.range' (i + 1) (n - (i + 1)) := by
  apply List.take_of_length_le
  simp [List.length_range']
  omega

/-- Splitting `range n` at the element i. -/
lemma range_split (i n : ℕ) (hi : i < n) :
    List.range n = List.range i ++ i :: List.range' (i + 1) (n - (i + 1)) := by
  have h1 := List.range'_append 0 i (n - i) 1
  have h2 : List.range' i (n - i) = i :: List.range' (i + 1) (n - (i + 1)) := by
    have h3 : n - i = (n - (i + 1)) + 1 := by omega
    rw [h3, List.range'_succ]
  rw [List.range_eq_range', List.range_eq_range' i] at *
  simp only [one_mul, Nat.zero_add] at h1
  rw [← h2, h1, Nat.sub_add_cancel hi.le]

/-- The visited index list is `range n` with i removed, in order. -/
lemma filter_ne_range (i n : ℕ) (hi : i < n) :
    (List.range n).filter (fun j => j ≠ i)
      = List.range i ++ List.range' (i + 1) (n - (i + 1)) := by
  rw [range_split i n hi, List.filter_append, List.filter_cons]
  have hl : (List.range i).filter (fun j => j ≠ i) = List.range i := by
    rw [List.filter_eq_self]
    intro a ha
    simp only [List.mem_range] at ha
    simp [Nat.ne_of_lt ha]
  have hr : (List.range' (i + 1) (n - (i + 1))).filter (fun j => j ≠ i)
      = List.range' (i + 1) (n - (i + 1)) := by
    rw [List.filter_eq_self]
    intro a ha
    rw [List.mem_range'_1] at ha
    simp
    omega
  simp only [hl, hr]
  simp

/-- The distances list is the lookups at all indices j ≠ i of `range n`,
ascending. -/
lemma get_distances_eq (i n : ℕ) (dmat : List ℚ) (hi : i < n) :
    get_distances_from_other_points i n dmat
      = ((List.range n).filter (fun j => j ≠ i)).map
          (fun j => condensedLookup dmat n i j) := by
  unfold get_distances_from_other_points
  rw [jlist_take i n hi, filter_ne_range i n hi]

/-- Cardinality of a filtered `Finset.range` as a count over `List.range`. -/
lemma card_filter_range (n : ℕ) (q : ℕ → Prop) [DecidablePred q] :
    ((Finset.range n).filter q).card
      = (List.range n).countP (fun j => decide (q j)) := by
  rw [Finset.card_def, Finset.filter_val, Finset.range_val]
  rw [show Multiset.range n = ((List.range n : List ℕ) : Multiset ℕ) from rfl]
  rw [Multiset.filter_coe, Multiset.coe_card, List.countP_eq_length_filter]

/-- The count of strictly-close distances computed by the code equals the
cardinality of the set of other points whose matrix entry is below the
threshold. -/
lemma countP_get_distances (eps : ℚ) (n : ℕ) (dmat : List ℚ) (i : ℕ)
    (hi : i < n) :
    (get_distances_from_other_points i n dmat).countP (fun d => d < eps)
      = ((Finset.range n).filter
          (fun j => j ≠ i ∧ condensedLookup dmat n i j < eps)).card := by
  rw [get_distances_eq i n dmat hi, List.countP_map, List.countP_filter,
    card_filter_range]
  apply List.countP_congr
  intro a _
  simp [Function.comp]
  tauto

/-- C10: for 0 ≤ i < n, `get_distances_from_other_points` returns exactly
n - 1 distances, one for each other point's index j in ascending order
(0..i-1 first, then i+1..n-1, with i itself skipped), each being the
condensed-matrix entry for the pair (i, j). -/
theorem get_distances_length_order (i n : ℕ) (dmat : List ℚ) (hi : i < n) :
    (get_distances_from_other_points i n dmat).length = n - 1 ∧
      get_distances_from_other_points i n dmat
        = ((List.range n).filter (fun j => j ≠ i)).map
            (fun j => condensedLookup dmat n i j) := by
  constructor
  · unfold get_distances_from_other_points
    rw [jlist_take i n hi]
    simp [List.length_range']
    omega
  · exact get_distances_eq i n dmat hi

/-- C10 witness: instantiation at i = 0, n = 4 with a concrete matrix. -/
theorem get_distances_length_order_witness :
    0 < 4 ∧
      ((get_distances_from_other_points 0 4 [1, 2, 3, 4, 5, 6]).length = 4 - 1 ∧
        get_distances_from_other_points 0 4 [1, 2, 3, 4, 5, 6]
          = ((List.range 4).filter (fun j => j ≠ 0)).map
              (fun j => condensedLookup [1, 2, 3, 4, 5, 6] 4 0 j)) :=
  ⟨by decide, get_distances_length_order 0 4 [1, 2, 3, 4, 5, 6] (by decide)⟩

/-- C3: i is reported as a core sample exactly when the number of other
points j ≠ i whose distance entry is strictly below the threshold, plus 1
for the point itself, reaches min_samples (≥ comparison). -/
theorem mem_coreSampleIndices_iff (eps : ℚ) (ms : ℤ) (n : ℕ) (dmat : List ℚ)
    (i : ℕ) (hi : i < n) :
    i ∈ getCoreSampleIndices eps ms n dmat ↔
      ms ≤ (((Finset.range n).filter
          (fun j => j ≠ i ∧ condensedLookup dmat n i j < eps)).card : ℤ) + 1 := by
  unfold getCoreSampleIndices
  rw [List.mem_filter]
  simp [List.mem_range, hi, countP_get_distances eps n dmat i hi]

/-- C3 witness: point 1 of the 7-point scenario matrix is a core sample iff
its closed neighborhood reaches min_samples = 3. -/
theorem mem_coreSampleIndices_iff_witness :
    1 < 7 ∧
      (1 ∈ getCoreSampleIndices (9 / 4) 3 7
          [2, 8, 50, 52, 58, 25, 2, 52, 50, 52, 37, 58, 52, 50, 53, 2, 8, 25, 2, 37, 53] ↔
        3 ≤ (((Finset.range 7).filter
            (fun j => j ≠ 1 ∧ condensedLookup
              [2, 8, 50, 52, 58, 25, 2, 52, 50, 52, 37, 58, 52, 50, 53, 2, 8, 25, 2, 37, 53]
              7 1 j < 9 / 4)).card : ℤ) + 1) :=
  ⟨by decide, mem_coreSampleIndices_iff (9 / 4) 3 7
    [2, 8, 50, 52, 58, 25, 2, 52, 50, 52, 37, 58, 52, 50, 53, 2, 8, 25, 2, 37, 53]
    1 (by decide)⟩

/-- C5: neighborhood membership is strict: the code's neighbor count for i is
the cardinality of the set of j ≠ i with entry strictly less than the
threshold; a j whose entry is below the threshold is in that set, and a j
whose entry equals the threshold exactly is not. -/
theorem neighbor_strict_lt (eps : ℚ) (n : ℕ) (dmat : List ℚ) (i j : ℕ)
    (hi : i < n) (hj : j < n) (hne : j ≠ i) :
    ((get_distances_from_other_points i n dmat).countP (fun d => d < eps)
        = ((Finset.range n).filter
            (fun t => t ≠ i ∧ condensedLookup dmat n i t < eps)).card) ∧
      (j ∈ (Finset.range n).filter
          (fun t => t ≠ i ∧ condensedLookup dmat n i t < eps) ↔
        condensedLookup dmat n i j < eps) ∧
      (condensedLookup dmat n i j = eps →
        j ∉ (Finset.range n).filter
            (fun t => t ≠ i ∧ condensedLookup dmat n i t < eps)) := by
  refine ⟨countP_get_distances eps n dmat i hi, ?_, ?_⟩
  · rw [Finset.mem_filter, Finset.mem_range]
    constructor
    · intro hmem
      exact hmem.2.2
    · intro hlt
      exact ⟨hj, hne, hlt⟩
  · intro heq hmem
    rw [Finset.mem_filter] at hmem
    exact absurd (heq ▸ hmem.2.2) (lt_irrefl eps)

/-- C5 witness: in a 2-point configuration whose only squared distance equals
the squared threshold exactly, point 1 is not a neighbor of point 0. -/
theorem neighbor_strict_lt_witness :
    (0 < 2 ∧ 1 < 2 ∧ 1 ≠ 0) ∧
      (((get_distances_from_other_points 0 2 [4]).countP (fun d => d < 4)
          = ((Finset.range 2).filter
              (fun t => t ≠ 0 ∧ condensedLookup [4] 2 0 t < 4)).card) ∧
        (1 ∈ (Finset.range 2).filter
            (fun t => t ≠ 0 ∧ condensedLookup [4] 2 0 t < 4) ↔
          condensedLookup [4] 2 0 1 < 4) ∧
        (condensedLookup [4] 2 0 1 = 4 →
          1 ∉ (Finset.range 2).filter
              (fun t => t ≠ 0 ∧ condensedLookup [4] 2 0 t < 4))) :=
  ⟨⟨by decide, by decide, by decide⟩,
    neighbor_strict_lt 4 2 [4] 0 1 (by decide) (by decide) (by decide)⟩

/-- C9: after any `fit`, the reported core sample indices are strictly
ascending (hence duplicate-free), and the components are exactly the input
rows at those indices, in the same order. -/
theorem coreSampleIndices_sorted_components_aligned (m : DBSCANState)
    (data : List (List ℚ)) :
    ∃ core, (m.fit data).core_sample_indices_ = some core ∧
      List.Pairwise (fun a b => a < b) core ∧
      (m.fit data).components_ = some (core.map (fun i => data.getD i [])) := by
  refine ⟨getCoreSampleIndices (m.eps * m.eps) m.min_samples data.length
    (pdistSq data), rfl, ?_, rfl⟩
  unfold getCoreSampleIndices
  exact List.Pairwise.sublist (List.filter_sublist _)
    (List.pairwise_lt_range data.length)

/-- C8: the condensed index is symmetric in its two point arguments (the
swap in `square_to_condensed` orders every pair), so both orders of a
distance query read the same condensed-array cell and the retrieved distance
is exactly symmetric. -/
theorem square_to_condensed_symm (dmat : List ℚ) (n i j : ℕ) :
    square_to_condensed i j n = square_to_condensed j i n ∧
      condensedLookup dmat n i j = condensedLookup dmat n j i := by
  have h : square_to_condensed i j n = square_to_condensed j i n := by
    unfold square_to_condensed
    rcases Nat.lt_trichotomy i j with hlt | heq | hgt
    · simp [Nat.ne_of_lt hlt, (Nat.ne_of_lt hlt).symm, hlt, Nat.lt_asymm hlt]
    · simp [heq]
    · simp [Nat.ne_of_lt hgt, (Nat.ne_of_lt hgt).symm, hgt, Nat.lt_asymm hgt]
  exact ⟨h, by unfold condensedLookup; rw [h]⟩

/-- Offset formula as stated by the spec, for 0 ≤ j < i < n:
n*j - j*(j+1)/2 + (i - j - 1) (a second definition following the spec's
words, to be compared with `square_to_condensed` from the source). -/
def specCondensedOffset (n i j : ℕ) : ℤ :=
  (n : ℤ) * (j : ℤ) - (j : ℤ) * ((j : ℤ) + 1) / 2 + ((i : ℤ) - (j : ℤ) - 1)

/-- Number of entries of the condensed matrix for n points: n*(n-1)/2. -/
def condensedSize (n : ℕ) : ℤ := (n : ℤ) * ((n : ℤ) - 1) / 2

/-- Exact halving of an even integer. -/
lemma two_mul_half (a : ℤ) (h : Even a) : 2 * (a / 2) = a := by
  obtain ⟨r, hr⟩ := h
  rw [hr, show r + r = 2 * r from by ring,
    Int.mul_ediv_cancel_left r (by norm_num)]

/-- The triangular term of the offset formula halves exactly. -/
lemma tri_halves (j : ℤ) : 2 * (j * (j + 1) / 2) = j * (j + 1) :=
  two_mul_half _ (Int.even_mul_succ_self j)

/-- The condensed size halves exactly. -/
lemma size_halves (n : ℤ) : 2 * (n * (n - 1) / 2) = n * (n - 1) := by
  apply two_mul_half
  have h := Int.even_mul_succ_self (n - 1)
  have h2 : (n - 1) * (n - 1 + 1) = n * (n - 1) := by ring
  rwa [h2] at h

/-- The code's condensed index agrees with the spec's formula on the valid
domain j < i < n. -/
lemma square_to_condensed_eq_spec (n i j : ℕ) (hj : j < i) (_hi : i < n) :
    square_to_condensed i j n = some (specCondensedOffset n i j) := by
  unfold square_to_condensed specCondensedOffset
  have h1 : ¬ (i = j) := by omega
  have h2 : ¬ (i < j) := by omega
  simp only [h1, h2, if_false, if_neg, Option.some.injEq]
  generalize (j : ℤ) * ((j : ℤ) + 1) / 2 = t
  ring

/-- The spec offset is nonnegative on the valid domain. -/
lemma spec_offset_nonneg (n i j : ℕ) (hj : j < i) (hi : i < n) :
    0 ≤ specCondensedOffset n i j := by
  unfold specCondensedOffset
  have h1 := tri_halves (j : ℤ)
  have hjZ : (j : ℤ) < (i : ℤ) := by exact_mod_cast hj
  have hiZ : (i : ℤ) < (n : ℤ) := by exact_mod_cast hi
  have hj0 : (0 : ℤ) ≤ (j : ℤ) := Int.natCast_nonneg j
  have hprod : (0 : ℤ) ≤ (j : ℤ) * (2 * (n : ℤ) - (j : ℤ) - 1) := by
    apply mul_nonneg hj0
    omega
  nlinarith [h1, hprod]

/-- The spec offset is below the condensed size on the valid domain. -/
lemma spec_offset_lt_size (n i j : ℕ) (hj : j < i) (hi : i < n) :
    specCondensedOffset n i j < condensedSize n := by
  unfold specCondensedOffset condensedSize
  have h1 := tri_halves (j : ℤ)
  have h2 := size_halves (n : ℤ)
  have hjZ : (j : ℤ) < (i : ℤ) := by exact_mod_cast hj
  have hiZ : (i : ℤ) < (n : ℤ) := by exact_mod_cast hi
  have hj0 : (0 : ℤ) ≤ (j : ℤ) := Int.natCast_nonneg j
  have hprod : (0 : ℤ) ≤ ((n : ℤ) - (j : ℤ) - 1) * ((n : ℤ) - (j : ℤ) - 2) := by
    apply mul_nonneg <;> omega
  nlinarith [h1, h2, hprod]

/-- The spec offset is injective on the valid domain. -/
lemma spec_offset_injOn (n i j i' j' : ℕ) (hj : j < i) (hi : i < n)
    (hj' : j' < i') (hi' : i' < n)
    (heq : specCondensedOffset n i j = specCondensedOffset n i' j') :
    i = i' ∧ j = j' := by
  have key : ∀ a b a' b' : ℕ, b < a → a < n → b' < a' → a' < n → b < b' →
      specCondensedOffset n a b ≠ specCondensedOffset n a' b' := by
    intro a b a' b' hb ha hb' ha' hbb heq2
    unfold specCondensedOffset at heq2
    have h1 := tri_halves (b : ℤ)
    have h2 := tri_halves (b' : ℤ)
    have hbZ : (b : ℤ) < (a : ℤ) := by exact_mod_cast hb
    have haZ : (a : ℤ) < (n : ℤ) := by exact_mod_cast ha
    have hbZ' : (b' : ℤ) < (a' : ℤ) := by exact_mod_cast hb'
    have haZ' : (a' : ℤ) < (n : ℤ) := by exact_mod_cast ha'
    have hbbZ : (b : ℤ) < (b' : ℤ) := by exact_mod_cast hbb
    have hb0 : (0 : ℤ) ≤ (b : ℤ) := Int.natCast_nonneg b
    have hprod : (0 : ℤ) ≤ ((b' : ℤ) - (b : ℤ) - 1) *
        (2 * (n : ℤ) - (b : ℤ) - (b' : ℤ) - 2) := by
      apply mul_nonneg <;> omega
    nlinarith [h1, h2, hprod]
  rcases Nat.lt_trichotomy j j' with hlt | heqj | hgt
  · exact absurd heq (key i j i' j' hj hi hj' hi' hlt)
  · subst heqj
    refine ⟨?_, rfl⟩
    unfold specCondensedOffset at heq
    omega
  · exact absurd heq.symm (key i' j' i j hj' hi' hj hi hgt)

/-- A sequence that starts at or below k and ends above k crosses k. -/
lemma exists_crossing (g : ℕ → ℤ) (k : ℤ) (m : ℕ) (h0 : g 0 ≤ k)
    (hm : k < g m) : ∃ j, j < m ∧ g j ≤ k ∧ k < g (j + 1) := by
  induction m with
  | zero => exact absurd (lt_of_le_of_lt h0 hm) (lt_irrefl _)
  | succ m ih =>
    by_cases hc : k < g m
    · obtain ⟨j, hj1, hj2, hj3⟩ := ih hc
      exact ⟨j, Nat.lt_succ_of_lt hj1, hj2, hj3⟩
    · exact ⟨m, Nat.lt_succ_self m, le_of_not_lt hc, hm⟩

/-- The offset decomposes as a block base (the offset of the pair (j+1, j))
plus the position of i inside block j. -/
lemma spec_offset_block (n i j : ℕ) :
    specCondensedOffset n i j
      = specCondensedOffset n (j + 1) j + ((i : ℤ) - (j : ℤ) - 1) := by
  unfold specCondensedOffset
  push_cast
  generalize (j : ℤ) * ((j : ℤ) + 1) / 2 = t
  ring

/-- Block bases start at 0. -/
lemma spec_offset_base_zero (n : ℕ) : specCondensedOffset n 1 0 = 0 := by
  unfold specCondensedOffset
  norm_num

/-- Consecutive block bases differ by the block width n - 1 - j. -/
lemma spec_offset_base_step (n j : ℕ) :
    specCondensedOffset n (j + 2) (j + 1)
      = specCondensedOffset n (j + 1) j + ((n : ℤ) - 1 - (j : ℤ)) := by
  unfold specCondensedOffset
  have h1 := tri_halves (j : ℤ)
  have h2 := tri_halves ((j : ℤ) + 1)
  push_cast
  nlinarith [h1, h2]

/-- The last block base is the condensed size. -/
lemma spec_offset_base_top (n : ℕ) (hn : 2 ≤ n) :
    specCondensedOffset n (n - 1 + 1) (n - 1) = condensedSize n := by
  unfold specCondensedOffset condensedSize
  have h1 := tri_halves ((n : ℤ) - 1)
  have h2 := size_halves (n : ℤ)
  have hc : ((n - 1 : ℕ) : ℤ) = (n : ℤ) - 1 := by
    have h3 : (1 : ℕ) ≤ n := by omega
    push_cast [h3]
    ring
  rw [hc]
  push_cast
  nlinarith [h1, h2]

/-- The spec offset is surjective onto 0 .. n*(n-1)/2 - 1. -/
lemma spec_offset_surjOn (n : ℕ) (k : ℤ) (hk0 : 0 ≤ k)
    (hk : k < condensedSize n) :
    ∃ i j, j < i ∧ i < n ∧ specCondensedOffset n i j = k := by
  have hn : 2 ≤ n := by
    by_contra hc
    have hn1 : n = 0 ∨ n = 1 := by omega
    have hz : condensedSize n = 0 := by
      rcases hn1 with h | h <;> subst h <;> rfl
    omega
  have hg0 : specCondensedOffset n (0 + 1) 0 ≤ k := by
    rw [show (0 + 1 : ℕ) = 1 from rfl, spec_offset_base_zero]
    exact hk0
  have hgtop : k < specCondensedOffset n (n - 1 + 1) (n - 1) := by
    rw [spec_offset_base_top n hn]
    exact hk
  obtain ⟨j, hjm, hle, hlt⟩ := exists_crossing
    (fun j => specCondensedOffset n (j + 1) j) k (n - 1) hg0 hgtop
  rw [show j + 1 + 1 = j + 2 from rfl, spec_offset_base_step n j] at hlt
  refine ⟨(k - specCondensedOffset n (j + 1) j).toNat + j + 1, j,
    by omega, by omega, ?_⟩
  rw [spec_offset_block]
  omega

/-- C4: on the domain 0 ≤ j < i < n the code's condensed index equals the
spec's formula n*j - j*(j+1)/2 + (i - j - 1), and that formula is a bijection
from the ordered representatives (i, j), j < i < n, of the unordered pairs
onto the flat indices 0 .. n*(n-1)/2 - 1: it lands in range, is injective,
and attains every value in range. -/
theorem square_to_condensed_spec_bijection (n : ℕ) :
    (∀ i j, j < i → i < n →
        square_to_condensed i j n = some (specCondensedOffset n i j)) ∧
      (∀ i j, j < i → i < n →
        0 ≤ specCondensedOffset n i j ∧
          specCondensedOffset n i j < condensedSize n) ∧
      (∀ i j i' j', j < i → i < n → j' < i' → i' < n →
        specCondensedOffset n i j = specCondensedOffset n i' j' →
          i = i' ∧ j = j') ∧
      (∀ k : ℤ, 0 ≤ k → k < condensedSize n →
        ∃ i j, j < i ∧ i < n ∧ specCondensedOffset n i j = k) := by
  refine ⟨?_, ?_, ?_, ?_⟩
  · intro i j hj hi
    exact square_to_condensed_eq_spec n i j hj hi
  · intro i j hj hi
    exact ⟨spec_offset_nonneg n i j hj hi, spec_offset_lt_size n i j hj hi⟩
  · intro i j i' j' hj hi hj' hi' heq
    exact spec_offset_injOn n i j i' j' hj hi hj' hi' heq
  · intro k hk0 hk
    exact spec_offset_surjOn n k hk0 hk

/-- C4 witness: the formula part instantiated at n = 4, i = 2, j = 1. -/
theorem square_to_condensed_spec_bijection_witness :
    (1 < 2 ∧ 2 < 4) ∧
      square_to_condensed 2 1 4 = some (specCondensedOffset 4 2 1) :=
  ⟨⟨by decide, by decide⟩,
    (square_to_condensed_spec_bijection 4).1 2 1 (by decide) (by decide)⟩
